import Mathlib

/-!
Shallow embedding of `vfb-tldextract` (`src/main.rs`).

The four core components are translated faithfully:

* the suffix-set loader `parse_tld_file`,
* the domain extractor `domain_for` with its helper `rfind_from`,
* the zero-copy record parser (`skip_white`, `expect`, `peek`,
  `string`, `parse`) together with `buf_to_str`,
* the IPv4 encoder `ipv4_to_u32`.

Hostnames are `List Char` (Rust byte indices at `.`-boundaries coincide
with list indices for the ASCII-relevant structure), byte buffers are
`List Nat` (each entry one byte), `u32`/`u8` arithmetic is `Nat`
arithmetic with explicit `% 2 ^ 32` / `% 2 ^ 256`-style wrapping where
the Rust code can wrap, and the Rust `HashSet` is a duplicate-free
insertion list whose only observable is membership.

Partial behaviour of the record parser is made explicit by the result
type `Res`: `Res.ok` is a successful `Some`, `Res.fail` is the graceful
`None` return, `Res.panic` marks the out-of-bounds index
`self.buf[self.pos]` in `expect`, and `Res.diverge` marks the
non-terminating `while self.peek() != b'"'` loop in `string` (once
`pos` runs past the end of the buffer, `peek` returns `0` forever).
-/

namespace TldX

/-! ### Domain extractor -/

/-- Index of the last occurrence of `c` in `l` (Rust `str::rfind`). -/
def rfind : List Char → Char → Option Nat
  | [], _ => none
  | x :: xs, c =>
    match rfind xs c with
    | some i => some (i + 1)
    | none => if x == c then some 0 else none

/-- `fn rfind_from(s, c, offset) { (&s[..offset]).rfind(c) }` -/
def rfind_from (s : List Char) (c : Char) (offset : Nat) : Option Nat :=
  rfind (s.take offset) c

/-- The `while let Some(idx) = rfind_from(host, '.', frontier)` loop of
`domain_for`: the candidate tested against the set is `&host[idx + 1..]`,
the whole suffix from after the dot to the end of `host`. Returns the
final value of `frontier`. -/
def domain_loop (host : List Char) (tld_set : List (List Char)) (frontier : Nat) : Nat :=
  match h : rfind_from host '.' frontier with
  | some idx =>
    if host.drop (idx + 1) ∈ tld_set then
      domain_loop host tld_set idx
    else
      frontier
  | none => frontier
termination_by frontier
decreasing_by
  have hb : ∀ (l : List Char) (i : Nat), rfind l '.' = some i → i < l.length := by
    intro l
    induction l with
    | nil => intro i hi; simp [rfind] at hi
    | cons x xs ih =>
      intro i hi
      rw [rfind] at hi
      cases hx : rfind xs '.' with
      | some j =>
        rw [hx] at hi
        simp only [Option.some.injEq] at hi
        have := ih j hx
        simp only [List.length_cons]
        omega
      | none =>
        rw [hx] at hi
        by_cases hxc : (x == '.') = true
        · simp only [hxc, if_true, Option.some.injEq] at hi
          simp only [List.length_cons]
          omega
        · rw [if_neg hxc] at hi
          exact Option.noConfusion hi
  have h1 := hb _ _ h
  have h2 : (host.take frontier).length ≤ frontier := by
    simp [List.length_take]
  omega

/-- `fn domain_for(host, tld_set) -> Option<&str>` -/
def domain_for (host : List Char) (tld_set : List (List Char)) : Option (List Char) :=
  let frontier := domain_loop host tld_set host.length
  if frontier == host.length then
    none
  else
    let start :=
      match rfind_from host '.' frontier with
      | some idx => idx + 1
      | none => 0
    some ((host.take frontier).drop start)

/-! ### Suffix-set loader -/

/-- Rust `str::trim` on a char list (leading and trailing whitespace
removed); `parse_tld_file` only observes its emptiness. -/
def trim (l : List Char) : List Char :=
  ((l.dropWhile Char.isWhitespace).reverse.dropWhile Char.isWhitespace).reverse

/-- Rust `str::starts_with` on char lists. -/
def starts_with (l pre : List Char) : Bool :=
  pre.isPrefixOf l

/-- `HashSet::insert`: a duplicate-free insertion list. -/
def setInsert (s : List (List Char)) (l : List Char) : List (List Char) :=
  if l ∈ s then s else l :: s

/-- The line loop of `parse_tld_file`, with the set accumulated so far:
skip a line iff its trim is empty or it starts with `//`, otherwise
insert the line verbatim. -/
def parse_tld_aux : List (List Char) → List (List Char) → List (List Char)
  | [], set => set
  | line :: rest, set =>
    if (trim line).isEmpty || starts_with line ['/', '/'] then
      parse_tld_aux rest set
    else
      parse_tld_aux rest (setInsert set line)

/-- `fn parse_tld_file` on the already-split list of input lines (the
file I/O and line splitting are external to the core). -/
def parse_tld_file (lines : List (List Char)) : List (List Char) :=
  parse_tld_aux lines []

/-! ### Zero-copy record parser -/

/-- Outcome of a parser step: `ok` = Rust `Some`, `fail` = Rust `None`,
`panic` = out-of-bounds slice index, `diverge` = infinite loop. -/
inductive Res (α : Type) where
  | ok : α → Res α
  | fail : Res α
  | panic : Res α
  | diverge : Res α
  deriving DecidableEq

/-- Sequencing with the `?` operator: `fail`, `panic` and `diverge`
short-circuit. -/
def Res.bind {α β : Type} : Res α → (α → Res β) → Res β
  | .ok a, f => f a
  | .fail, _ => .fail
  | .panic, _ => .panic
  | .diverge, _ => .diverge

/-- `Parser::is_white` -/
def is_white (c : Nat) : Bool :=
  (c == 32) || (c == 9) || (c == 10) || (c == 13)

/-- `Parser::skip_white`: advance `pos` over in-bounds whitespace;
stops at the first non-white byte or at the end of the buffer. -/
def skip_white (buf : List Nat) (pos : Nat) : Nat :=
  if h : pos < buf.length then
    if is_white buf[pos] then skip_white buf (pos + 1) else pos
  else pos
termination_by buf.length - pos
decreasing_by omega

/-- `Parser::peek`: `*self.buf.get(self.pos).unwrap_or(&0)`. -/
def peek (buf : List Nat) (pos : Nat) : Nat :=
  buf[pos]?.getD 0

/-- `Parser::expect`: skip whitespace, then test `self.buf[self.pos]`.
That index is unchecked in the source, so if the buffer is exhausted
the step is a `panic`. -/
def expect (buf : List Nat) (pos : Nat) (c : Nat) : Res Nat :=
  let q := skip_white buf pos
  if h : q < buf.length then
    if buf[q] == c then Res.ok (q + 1) else Res.fail
  else Res.panic

/-- The `while self.peek() != b'"' { self.pos += 1 }` scan of
`Parser::string`: first position `≥ pos` holding a `"` byte, or `none`
when there is none in bounds — in which case `peek` returns `0` forever
and the source loop never exits (divergence). -/
def scanQuote (buf : List Nat) (pos : Nat) : Option Nat :=
  if h : pos < buf.length then
    if peek buf pos == 34 then some pos else scanQuote buf (pos + 1)
  else none
termination_by buf.length - pos
decreasing_by omega

/-- `Parser::string`: returns `((start, end), pos-after)`. -/
def string (buf : List Nat) (pos : Nat) : Res ((Nat × Nat) × Nat) :=
  Res.bind (expect buf pos 34) fun p =>
  match scanQuote buf p with
  | some e =>
    Res.bind (expect buf e 34) fun p2 =>
    Res.ok ((p, e), p2)
  | none => Res.diverge

/-- `struct RdnsInfoPositions` -/
structure RdnsInfoPositions where
  name : Nat × Nat
  value : Nat × Nat
  deriving DecidableEq

/-- `Parser::parse`: byte values `123 125 58 44 34` are
`{ } : , "`. -/
def parse (buf : List Nat) (pos : Nat) : Res RdnsInfoPositions :=
  Res.bind (expect buf pos 123) fun p0 =>
  let p0 := skip_white buf p0
  Res.bind (string buf p0) fun ts_key =>
  Res.bind (expect buf ts_key.2 58) fun p1 =>
  Res.bind (string buf p1) fun ts_val =>
  Res.bind (expect buf ts_val.2 44) fun p2 =>
  Res.bind (string buf p2) fun name_key =>
  Res.bind (expect buf name_key.2 58) fun p3 =>
  Res.bind (string buf p3) fun name_val =>
  Res.bind (expect buf name_val.2 44) fun p4 =>
  Res.bind (string buf p4) fun ptr_key =>
  Res.bind (expect buf ptr_key.2 58) fun p5 =>
  Res.bind (string buf p5) fun ptr_val =>
  Res.bind (expect buf ptr_val.2 44) fun p6 =>
  Res.bind (string buf p6) fun value_key =>
  Res.bind (expect buf value_key.2 58) fun p7 =>
  Res.bind (string buf p7) fun value_val =>
  Res.bind (expect buf value_val.2 125) fun _ =>
  Res.ok ⟨name_val.1, value_val.1⟩

/-- `fn buf_to_str`: the slice `&buf[start..end]` (the UTF-8 view is
identity on the byte list). -/
def buf_to_str (buf : List Nat) (p : Nat × Nat) : List Nat :=
  (buf.take p.2).drop p.1

/-- A quoted token: `"` content `"`. -/
def qt (s : List Nat) : List Nat :=
  34 :: (s ++ [34])

/-- Canonical well-formed 4-pair record buffer
`{"k1":"v1","k2":"v2","k3":"v3","k4":"v4"}` with arbitrary
quote-free key/value byte strings. -/
def enc (k1 v1 k2 v2 k3 v3 k4 v4 : List Nat) : List Nat :=
  [123] ++ qt k1 ++ [58] ++ qt v1 ++ [44] ++ qt k2 ++ [58] ++ qt v2 ++ [44] ++
    qt k3 ++ [58] ++ qt v3 ++ [44] ++ qt k4 ++ [58] ++ qt v4 ++ [125]

/-- A complete flat object with only one key/value pair:
`{"k":"v"}`. -/
def enc1 (k v : List Nat) : List Nat :=
  [123] ++ qt k ++ [58] ++ qt v ++ [125]

/-! ### IPv4 encoder -/

/-- `let shifts: [u32; 4] = [24, 16, 8, 0];` -/
def shifts : List Nat :=
  [24, 16, 8, 0]

/-- The byte loop of `ipv4_to_u32`, carrying `(ip, octet, curr_octet)`.
`u32` additions, multiplications and shifts wrap modulo `2 ^ 32`, the
`u8` subtraction `*b - b'0'` wraps modulo `256`, and the unchecked
array index `shifts[curr_octet]` is a `none` (panic) when
`curr_octet > 3`. -/
def ipv4_loop : List Nat → Nat → Nat → Nat → Option Nat
  | [], ip, octet, curr =>
    match shifts[curr]? with
    | some shift => some ((ip + octet * 2 ^ shift % 2 ^ 32) % 2 ^ 32)
    | none => none
  | b :: bs, ip, octet, curr =>
    if b == 46 then
      match shifts[curr]? with
      | some shift => ipv4_loop bs ((ip + octet * 2 ^ shift % 2 ^ 32) % 2 ^ 32) 0 (curr + 1)
      | none => none
    else
      ipv4_loop bs ip ((octet * 10 + (b + 256 - 48) % 256) % 2 ^ 32) curr

/-- `fn ipv4_to_u32(s: &[u8]) -> u32` -/
def ipv4_to_u32 (s : List Nat) : Option Nat :=
  ipv4_loop s 0 0 0

/-- Decimal value of a digit byte string (specification-side reading of
an octet group, no wrapping). -/
def digitsVal (d : List Nat) : Nat :=
  d.foldl (fun a b => a * 10 + (b - 48)) 0

/-! ### Helper lemmas: `rfind` and the domain extractor -/

theorem rfind_lt_length {l : List Char} {c : Char} {i : Nat}
    (h : rfind l c = some i) : i < l.length := by
  induction l generalizing i with
  | nil => simp [rfind] at h
  | cons x xs ih =>
    rw [rfind] at h
    cases hx : rfind xs c with
    | some j =>
      rw [hx] at h
      simp only [Option.some.injEq] at h
      have := ih hx
      simp only [List.length_cons]
      omega
    | none =>
      rw [hx] at h
      by_cases hxc : (x == c) = true
      · simp only [hxc, if_true, Option.some.injEq] at h
        simp only [List.length_cons]
        omega
      · rw [if_neg hxc] at h
        exact Option.noConfusion h

theorem rfind_eq_none {l : List Char} {c : Char} :
    rfind l c = none ↔ c ∉ l := by
  induction l with
  | nil => simp [rfind]
  | cons x xs ih =>
    rw [rfind]
    cases hx : rfind xs c with
    | some j =>
      constructor
      · intro h; exact Option.noConfusion h
      · intro h
        have hmem : c ∈ xs := by
          by_contra hc
          rw [ih.mpr hc] at hx
          exact Option.noConfusion hx
        exact absurd (List.mem_cons_of_mem x hmem) h
    | none =>
      by_cases hxc : (x == c) = true
      · have hxe : x = c := eq_of_beq hxc
        subst hxe
        simp
      · have hne : ¬x = c := by simpa using hxc
        rw [if_neg hxc]
        simp only [List.mem_cons]
        constructor
        · intro _
          rintro (rfl | hc)
          · exact hne rfl
          · exact absurd hc (ih.mp hx)
        · intro _
          trivial

theorem rfind_not_mem_drop {l : List Char} {c : Char} {i : Nat}
    (h : rfind l c = some i) : c ∉ l.drop (i + 1) := by
  induction l generalizing i with
  | nil => simp [rfind] at h
  | cons x xs ih =>
    rw [rfind] at h
    cases hx : rfind xs c with
    | some j =>
      rw [hx] at h
      simp only [Option.some.injEq] at h
      subst h
      simpa using ih hx
    | none =>
      rw [hx] at h
      by_cases hxc : (x == c) = true
      · simp only [hxc, if_true, Option.some.injEq] at h
        subst h
        simpa using rfind_eq_none.mp hx
      · rw [if_neg hxc] at h
        exact Option.noConfusion h

theorem rfind_from_lt {s : List Char} {c : Char} {off i : Nat}
    (h : rfind_from s c off = some i) : i < off := by
  have h1 := rfind_lt_length h
  have h2 : (s.take off).length ≤ off := by simp
  omega

theorem domain_loop_le (host : List Char) (tld_set : List (List Char)) :
    ∀ f, domain_loop host tld_set f ≤ f := by
  intro f
  induction f using Nat.strong_induction_on with
  | _ f ih =>
    rw [domain_loop]
    split
    · rename_i idx heq
      split
      · have h1 := rfind_from_lt heq
        have h2 := ih idx h1
        omega
      · exact Nat.le_refl f
    · exact Nat.le_refl f

/-! ### Claim C1 -/

/-- C1 counterexample: with the multi-label suffix `co.uk` represented
as the two single-label entries `uk` and `co`, `domain_for` does NOT
absorb both labels and return `example`: the candidate tested at each
step is the whole suffix `&host[idx + 1..]` (here `co.uk` at the second
step, which is not in the set), so the scan stops and the function
returns `co`. This refutes the claim as stated. -/
theorem c1_counterexample :
    domain_for ['e', 'x', 'a', 'm', 'p', 'l', 'e', '.', 'c', 'o', '.', 'u', 'k']
      [['u', 'k'], ['c', 'o']] = some ['c', 'o'] := by
  simp [domain_for, domain_loop, rfind_from, rfind]

/-- C1 amended: at each scan step the candidate tested for set
membership is the entire suffix `host[idx + 1..]`, from just after the
newly found dot to the end of `host` — not the single label up to the
current frontier. Multi-label public suffixes therefore must be present
verbatim in the set: for any set containing both `uk` and `co.uk`,
`domain_for "example.co.uk"` absorbs `uk` and then `co.uk` and returns
`example`; the single-label set `{uk, co}` instead yields `co`. -/
theorem c1_amended (S : List (List Char))
    (h1 : ['u', 'k'] ∈ S) (h2 : ['c', 'o', '.', 'u', 'k'] ∈ S) :
    domain_for ['e', 'x', 'a', 'm', 'p', 'l', 'e', '.', 'c', 'o', '.', 'u', 'k'] S =
      some ['e', 'x', 'a', 'm', 'p', 'l', 'e'] := by
  simp [domain_for, domain_loop, rfind_from, rfind, h1, h2]

/-- C1 witness: the amended claim at the concrete set
`{uk, co.uk}`. -/
theorem c1_witness :
    domain_for ['e', 'x', 'a', 'm', 'p', 'l', 'e', '.', 'c', 'o', '.', 'u', 'k']
      [['u', 'k'], ['c', 'o', '.', 'u', 'k']] = some ['e', 'x', 'a', 'm', 'p', 'l', 'e'] :=
  c1_amended _ (by simp) (by simp)

/-! ### Claim C6 -/

/-- C6: if the hostname contains no dot, or its final label (the part
after the last dot, which is exactly the first candidate tested) is not
in the suffix set, then `domain_for` returns `none`: the frontier never
moves from `len(host)`. -/
theorem c6_no_final_suffix (h : List Char) (S : List (List Char))
    (hcond : '.' ∉ h ∨
      ∃ i, rfind_from h '.' h.length = some i ∧ h.drop (i + 1) ∉ S) :
    domain_for h S = none := by
  have hloop : domain_loop h S h.length = h.length := by
    rw [domain_loop]
    split
    · rename_i idx heq
      rcases hcond with hnd | ⟨i, hi, hns⟩
      · exfalso
        unfold rfind_from at heq
        rw [List.take_length] at heq
        rw [rfind_eq_none.mpr hnd] at heq
        exact Option.noConfusion heq
      · have hidx : idx = i := by
          rw [heq] at hi
          exact (Option.some.injEq _ _).mp hi
        subst hidx
        rw [if_neg hns]
    · rfl
  simp only [domain_for, hloop, beq_self_eq_true, if_true]

/-- C6 witness: a dotless host with a nonempty set. -/
theorem c6_witness : domain_for ['a', 'b'] [['x']] = none :=
  c6_no_final_suffix _ _ (Or.inl (by decide))

/-! ### Claim C8 -/

/-- C8: each loop iteration of `domain_for` strictly decreases the
frontier: the dot found by `rfind_from host '.' frontier` lies strictly
left of `frontier` (it is an index into `host[..frontier]`), so the
scan loop terminates after at most `len(host)` steps. -/
theorem c8_frontier_decreases (host : List Char) (frontier idx : Nat)
    (h : rfind_from host '.' frontier = some idx) : idx < frontier :=
  rfind_from_lt h

/-- C8 witness: concrete decrease on `a.b` with frontier 3. -/
theorem c8_witness : rfind_from ['a', '.', 'b'] '.' 3 = some 1 ∧ 1 < 3 :=
  ⟨by decide, c8_frontier_decreases ['a', '.', 'b'] 3 1 (by decide)⟩

/-! ### Claim C10 -/

/-- C10: whenever `domain_for host set = some d`, the result `d` is a
contiguous substring of `host`, contains no dot, and is strictly
shorter than `host`; and `d` can be empty, as on
`domain_for ".com" {com}`. -/
theorem c10_domain_shape :
    (∀ (h : List Char) (S : List (List Char)) (d : List Char),
      domain_for h S = some d →
        (∃ a b, h = a ++ d ++ b) ∧ '.' ∉ d ∧ d.length < h.length) ∧
    domain_for ['.', 'c', 'o', 'm'] [['c', 'o', 'm']] = some [] := by
  constructor
  · intro h S d hd
    simp only [domain_for] at hd
    by_cases hfe : (domain_loop h S h.length == h.length) = true
    · rw [if_pos hfe] at hd
      exact Option.noConfusion hd
    · rw [if_neg hfe] at hd
      have hle := domain_loop_le h S h.length
      have hne : domain_loop h S h.length ≠ h.length := by simpa using hfe
      have hlt : domain_loop h S h.length < h.length := by omega
      cases hrf : rfind_from h '.' (domain_loop h S h.length) with
      | some idx =>
        rw [hrf] at hd
        have hd' : (h.take (domain_loop h S h.length)).drop (idx + 1) = d :=
          (Option.some.injEq _ _).mp hd
        refine ⟨?_, ?_, ?_⟩
        · refine ⟨(h.take (domain_loop h S h.length)).take (idx + 1),
            h.drop (domain_loop h S h.length), ?_⟩
          rw [← hd']
          rw [List.take_append_drop, List.take_append_drop]
        · rw [← hd']
          exact rfind_not_mem_drop hrf
        · rw [← hd']
          simp only [List.length_drop, List.length_take]
          omega
      | none =>
        rw [hrf] at hd
        have hd' : (h.take (domain_loop h S h.length)).drop 0 = d :=
          (Option.some.injEq _ _).mp hd
        rw [List.drop_zero] at hd'
        refine ⟨?_, ?_, ?_⟩
        · refine ⟨[], h.drop (domain_loop h S h.length), ?_⟩
          rw [← hd']
          simp [List.take_append_drop]
        · rw [← hd']
          unfold rfind_from at hrf
          exact rfind_eq_none.mp hrf
        · rw [← hd']
          simp only [List.length_take]
          omega
  · simp [domain_for, domain_loop, rfind_from, rfind]

/-- C10 witness: the shape facts at `domain_for "a.com" {com} = some "a"`. -/
theorem c10_witness :
    (∃ a b, ['a', '.', 'c', 'o', 'm'] = a ++ ['a'] ++ b) ∧
      '.' ∉ (['a'] : List Char) ∧
      (['a'] : List Char).length < (['a', '.', 'c', 'o', 'm'] : List Char).length :=
  c10_domain_shape.1 _ [['c', 'o', 'm']] _
    (by simp [domain_for, domain_loop, rfind_from, rfind])

/-! ### Claim C7: the suffix-set loader -/

theorem mem_setInsert {s : List (List Char)} {x l : List Char} :
    l ∈ setInsert s x ↔ l ∈ s ∨ l = x := by
  unfold setInsert
  by_cases hx : x ∈ s
  · rw [if_pos hx]
    constructor
    · exact Or.inl
    · rintro (h | rfl)
      · exact h
      · exact hx
  · rw [if_neg hx]
    simp only [List.mem_cons]
    constructor
    · rintro (rfl | h)
      · exact Or.inr rfl
      · exact Or.inl h
    · rintro (h | rfl)
      · exact Or.inr h
      · exact Or.inl rfl

theorem mem_parse_tld_aux (lines : List (List Char)) :
    ∀ (acc : List (List Char)) (l : List Char),
      l ∈ parse_tld_aux lines acc ↔
        l ∈ acc ∨ (l ∈ lines ∧
          ((trim l).isEmpty || starts_with l ['/', '/']) = false) := by
  induction lines with
  | nil => intro acc l; simp [parse_tld_aux]
  | cons line rest ih =>
    intro acc l
    rw [parse_tld_aux]
    by_cases hskip : ((trim line).isEmpty || starts_with line ['/', '/']) = true
    · rw [if_pos hskip, ih]
      simp only [List.mem_cons]
      constructor
      · rintro (h | ⟨hm, hk⟩)
        · exact Or.inl h
        · exact Or.inr ⟨Or.inr hm, hk⟩
      · rintro (h | ⟨rfl | hm, hk⟩)
        · exact Or.inl h
        · rw [hskip] at hk
          exact Bool.noConfusion hk
        · exact Or.inr ⟨hm, hk⟩
    · rw [if_neg hskip, ih]
      rw [mem_setInsert]
      simp only [List.mem_cons]
      have hkeep : ((trim line).isEmpty || starts_with line ['/', '/']) = false :=
        Bool.not_eq_true _ ▸ Bool.of_not_eq_true hskip
      constructor
      · rintro ((h | rfl) | ⟨hm, hk⟩)
        · exact Or.inl h
        · exact Or.inr ⟨Or.inl rfl, hkeep⟩
        · exact Or.inr ⟨Or.inr hm, hk⟩
      · rintro (h | ⟨rfl | hm, hk⟩)
        · exact Or.inl (Or.inl h)
        · exact Or.inl (Or.inr rfl)
        · exact Or.inr ⟨hm, hk⟩

/-- C7: after loading, a string is in the suffix set exactly when it is
one of the input lines that was not skipped, where a line is skipped
iff it is empty after trimming or starts with the two-character comment
marker `//`. Kept lines are inserted verbatim (untrimmed; the trim is
only used for the emptiness test, and the `//` test is on the original
line, both as in the source). -/
theorem c7_loader_membership (lines : List (List Char)) (l : List Char) :
    l ∈ parse_tld_file lines ↔
      l ∈ lines ∧ ((trim l).isEmpty || starts_with l ['/', '/']) = false := by
  rw [parse_tld_file, mem_parse_tld_aux]
  simp

/-! ### Helper lemmas: IPv4 encoder -/

theorem ipv4_loop_isSome :
    ∀ (s : List Nat) (ip octet curr : Nat), curr + s.count 46 ≤ 3 →
      (ipv4_loop s ip octet curr).isSome = true := by
  intro s
  induction s with
  | nil =>
    intro ip octet curr hc
    simp only [List.count_nil] at hc
    rw [ipv4_loop]
    have hcurr : curr < shifts.length := by simp [shifts]; omega
    rw [List.getElem?_eq_getElem hcurr]
    rfl
  | cons b bs ih =>
    intro ip octet curr hc
    rw [ipv4_loop]
    by_cases hb : (b == 46) = true
    · rw [if_pos hb]
      have hbe : b = 46 := by simpa using hb
      subst hbe
      rw [List.count_cons_self] at hc
      have hcurr : curr < shifts.length := by simp [shifts]; omega
      rw [List.getElem?_eq_getElem hcurr]
      exact ih _ _ _ (by omega)
    · rw [if_neg hb]
      have hbne : b ≠ 46 := by simpa using hb
      rw [List.count_cons_of_ne (by omega)] at hc
      exact ih _ _ _ hc

theorem ipv4_loop_lt :
    ∀ (s : List Nat) (ip octet curr v : Nat),
      ipv4_loop s ip octet curr = some v → v < 2 ^ 32 := by
  intro s
  induction s with
  | nil =>
    intro ip octet curr v h
    rw [ipv4_loop] at h
    cases hsh : shifts[curr]? with
    | some sh =>
      rw [hsh] at h
      have hv := (Option.some.injEq _ _).mp h
      subst hv
      exact Nat.mod_lt _ (by norm_num)
    | none =>
      rw [hsh] at h
      exact Option.noConfusion h
  | cons b bs ih =>
    intro ip octet curr v h
    rw [ipv4_loop] at h
    by_cases hb : (b == 46) = true
    · rw [if_pos hb] at h
      cases hsh : shifts[curr]? with
      | some sh =>
        rw [hsh] at h
        exact ih _ _ _ _ h
      | none =>
        rw [hsh] at h
        exact Option.noConfusion h
    · rw [if_neg hb] at h
      exact ih _ _ _ _ h

theorem digits_foldl_ge (d : List Nat) :
    ∀ octet : Nat, octet ≤ d.foldl (fun a b => a * 10 + (b - 48)) octet := by
  induction d with
  | nil => intro octet; simp
  | cons b bs ih =>
    intro octet
    rw [List.foldl_cons]
    calc octet ≤ octet * 10 + (b - 48) := by omega
      _ ≤ _ := ih _

theorem ipv4_loop_digits :
    ∀ (d bs : List Nat) (ip octet curr : Nat),
      (∀ b ∈ d, 48 ≤ b ∧ b ≤ 57) →
      d.foldl (fun a b => a * 10 + (b - 48)) octet < 2 ^ 32 →
      ipv4_loop (d ++ bs) ip octet curr =
        ipv4_loop bs ip (d.foldl (fun a b => a * 10 + (b - 48)) octet) curr := by
  intro d
  induction d with
  | nil =>
    intro bs ip octet curr _ _
    simp
  | cons b d' ih =>
    intro bs ip octet curr hd hlt
    have hb := hd b (List.mem_cons_self _ _)
    have hbne : (b == 46) = false := by simp; omega
    have hsub : (b + 256 - 48) % 256 = b - 48 := by omega
    rw [List.foldl_cons] at hlt
    have hmono := digits_foldl_ge d' (octet * 10 + (b - 48))
    have hsm : (octet * 10 + (b - 48)) % 2 ^ 32 = octet * 10 + (b - 48) :=
      Nat.mod_eq_of_lt (by omega)
    rw [List.cons_append]
    rw [ipv4_loop]
    rw [if_neg (by rw [hbne]; exact Bool.false_ne_true)]
    rw [hsub, hsm, List.foldl_cons]
    exact ih bs ip _ curr (fun x hx => hd x (List.mem_cons_of_mem _ hx)) hlt

theorem ipv4_loop_dot (bs : List Nat) (ip octet curr sh : Nat)
    (hsh : shifts[curr]? = some sh) :
    ipv4_loop (46 :: bs) ip octet curr =
      ipv4_loop bs ((ip + octet * 2 ^ sh % 2 ^ 32) % 2 ^ 32) 0 (curr + 1) := by
  rw [ipv4_loop, if_pos (by rfl), hsh]

theorem ipv4_loop_nil (ip octet curr sh : Nat) (hsh : shifts[curr]? = some sh) :
    ipv4_loop [] ip octet curr = some ((ip + octet * 2 ^ sh % 2 ^ 32) % 2 ^ 32) := by
  rw [ipv4_loop, hsh]

/-- Disjoint bit-field packing: when the low part is below `2 ^ k`,
bitwise or of a shifted value with it is plain addition. -/
theorem lor_two_pow_add (a b k : Nat) (h : b < 2 ^ k) :
    a <<< k ||| b = a * 2 ^ k + b := by
  apply Nat.eq_of_testBit_eq
  intro i
  rw [Nat.testBit_lor, Nat.testBit_shiftLeft]
  rcases lt_or_ge i k with hi | hi
  · have h1 : (decide (i ≥ k)) = false := by simp; omega
    rw [h1]
    simp only [Bool.false_and, Bool.false_or]
    have hmod : (a * 2 ^ k + b) % 2 ^ k = b := by
      rw [Nat.mul_comm, Nat.mul_add_mod]
      exact Nat.mod_eq_of_lt h
    conv_lhs => rw [← hmod]
    rw [Nat.testBit_mod_two_pow]
    simp [hi]
  · have h1 : (decide (i ≥ k)) = true := by simp; omega
    rw [h1]
    simp only [Bool.true_and]
    have hb : b.testBit i = false := by
      apply Nat.testBit_eq_false_of_lt
      exact lt_of_lt_of_le h (Nat.pow_le_pow_right (by norm_num) hi)
    rw [hb, Bool.or_false]
    have hsr : (a * 2 ^ k + b) >>> k = a := by
      rw [Nat.shiftRight_eq_div_pow]
      rw [Nat.mul_comm, Nat.mul_add_div (Nat.pos_pow_of_pos k (by norm_num))]
      rw [Nat.div_eq_of_lt h]
      omega
    have h2 := Nat.testBit_shiftRight (i := k) (j := i - k) (a * 2 ^ k + b)
    rw [hsr] at h2
    have h3 : k + (i - k) = i := by omega
    rw [h3] at h2
    exact h2

/-! ### Claim C3 -/

/-- C3 counterexample: on the digits-and-dots input `"1.2.3.4.5"`
(four dots, five groups) `ipv4_to_u32` does not return a defined 32-bit
result: at the fourth dot `curr_octet` is 4 and the unchecked index
`shifts[curr_octet]` is out of bounds, a panic (modelled `none`). This
refutes the claim as stated for group counts above 4. -/
theorem c3_counterexample :
    ipv4_to_u32 [49, 46, 50, 46, 51, 46, 52, 46, 53] = none := by
  decide

/-- C3 amended: for every digits-and-dots input containing AT MOST
THREE dot bytes — which covers octet groups exceeding 255 (such as
`"999.1.1.1"`, second conjunct) and fewer than 4 groups (such as
`"1.2.3"`, third conjunct), but not more than 4 groups —
`ipv4_to_u32` returns a numerically defined 32-bit result with no
panic and no error; with a fourth dot the `shifts[curr_octet]` index
panics instead (see the counterexample). -/
theorem c3_amended :
    (∀ s : List Nat, (∀ b ∈ s, (48 ≤ b ∧ b ≤ 57) ∨ b = 46) →
      s.count 46 ≤ 3 → ∃ v, ipv4_to_u32 s = some v ∧ v < 2 ^ 32) ∧
    ipv4_to_u32 [57, 57, 57, 46, 49, 46, 49, 46, 49] = some 3875602689 ∧
    ipv4_to_u32 [49, 46, 50, 46, 51] = some 16909056 := by
  refine ⟨?_, by decide, by decide⟩
  intro s hdig hcount
  have h1 : (ipv4_loop s 0 0 0).isSome = true :=
    ipv4_loop_isSome s 0 0 0 (by omega)
  obtain ⟨v, hv⟩ := Option.isSome_iff_exists.mp h1
  exact ⟨v, hv, ipv4_loop_lt s 0 0 0 v hv⟩

/-- C3 witness: the amended claim at `"1.2.3"`. -/
theorem c3_witness :
    ∃ v, ipv4_to_u32 [49, 46, 50, 46, 51] = some v ∧ v < 2 ^ 32 :=
  c3_amended.1 [49, 46, 50, 46, 51] (by decide) (by decide)

/-! ### Claim C5 -/

/-- C5: on exactly 4 dot-separated digit groups whose values fit an
octet (below 256, so every accumulation step stays below `2 ^ 32` and
no wrap occurs), `ipv4_to_u32` returns the big-endian packing
`o0<<24 | o1<<16 | o2<<8 | o3`; in particular
`ipv4_to_u32 (b"192.168.32.1") = 3232243713` (second conjunct). -/
theorem c5_big_endian :
    (∀ d0 d1 d2 d3 : List Nat,
      (∀ b ∈ d0, 48 ≤ b ∧ b ≤ 57) → (∀ b ∈ d1, 48 ≤ b ∧ b ≤ 57) →
      (∀ b ∈ d2, 48 ≤ b ∧ b ≤ 57) → (∀ b ∈ d3, 48 ≤ b ∧ b ≤ 57) →
      digitsVal d0 < 256 → digitsVal d1 < 256 →
      digitsVal d2 < 256 → digitsVal d3 < 256 →
      ipv4_to_u32 (d0 ++ 46 :: (d1 ++ 46 :: (d2 ++ 46 :: d3))) =
        some (digitsVal d0 <<< 24 ||| digitsVal d1 <<< 16 |||
          digitsVal d2 <<< 8 ||| digitsVal d3)) ∧
    ipv4_to_u32 [49, 57, 50, 46, 49, 54, 56, 46, 51, 50, 46, 49] =
      some 3232243713 := by
  refine ⟨?_, by decide⟩
  intro d0 d1 d2 d3 h0 h1 h2 h3 hv0 hv1 hv2 hv3
  rw [ipv4_to_u32]
  rw [ipv4_loop_digits d0 _ 0 0 0 h0 (by have := digitsVal d0; unfold digitsVal at hv0; omega)]
  rw [show (List.foldl (fun a b => a * 10 + (b - 48)) 0 d0) = digitsVal d0 from rfl]
  rw [ipv4_loop_dot _ _ _ _ _ (show shifts[0]? = some 24 from rfl)]
  have e0 : (0 + digitsVal d0 * 2 ^ 24 % 2 ^ 32) % 2 ^ 32 = digitsVal d0 * 2 ^ 24 := by
    omega
  rw [e0]
  rw [ipv4_loop_digits d1 _ _ 0 (0 + 1) h1 (by unfold digitsVal at hv1; omega)]
  rw [show (List.foldl (fun a b => a * 10 + (b - 48)) 0 d1) = digitsVal d1 from rfl]
  rw [ipv4_loop_dot _ _ _ _ _ (show shifts[0 + 1]? = some 16 from rfl)]
  have e1 : (digitsVal d0 * 2 ^ 24 + digitsVal d1 * 2 ^ 16 % 2 ^ 32) % 2 ^ 32 =
      digitsVal d0 * 2 ^ 24 + digitsVal d1 * 2 ^ 16 := by
    omega
  rw [e1]
  rw [ipv4_loop_digits d2 _ _ 0 (0 + 1 + 1) h2 (by unfold digitsVal at hv2; omega)]
  rw [show (List.foldl (fun a b => a * 10 + (b - 48)) 0 d2) = digitsVal d2 from rfl]
  rw [ipv4_loop_dot _ _ _ _ _ (show shifts[0 + 1 + 1]? = some 8 from rfl)]
  have e2 : (digitsVal d0 * 2 ^ 24 + digitsVal d1 * 2 ^ 16 + digitsVal d2 * 2 ^ 8 % 2 ^ 32) %
      2 ^ 32 = digitsVal d0 * 2 ^ 24 + digitsVal d1 * 2 ^ 16 + digitsVal d2 * 2 ^ 8 := by
    omega
  rw [e2]
  conv_lhs => rw [show d3 = d3 ++ ([] : List Nat) from (List.append_nil d3).symm]
  rw [ipv4_loop_digits d3 [] _ 0 (0 + 1 + 1 + 1) h3 (by unfold digitsVal at hv3; omega)]
  rw [show (List.foldl (fun a b => a * 10 + (b - 48)) 0 d3) = digitsVal d3 from rfl]
  rw [ipv4_loop_nil _ _ _ _ (show shifts[0 + 1 + 1 + 1]? = some 0 from rfl)]
  have e3 : (digitsVal d0 * 2 ^ 24 + digitsVal d1 * 2 ^ 16 + digitsVal d2 * 2 ^ 8 +
      digitsVal d3 * 2 ^ 0 % 2 ^ 32) % 2 ^ 32 =
      digitsVal d0 * 2 ^ 24 + digitsVal d1 * 2 ^ 16 + digitsVal d2 * 2 ^ 8 + digitsVal d3 := by
    omega
  rw [e3]
  rw [Nat.lor_assoc, Nat.lor_assoc]
  rw [lor_two_pow_add _ _ 8 (by omega)]
  rw [lor_two_pow_add _ _ 16 (by omega)]
  rw [lor_two_pow_add _ _ 24 (by omega)]
  refine congrArg some ?_
  omega

/-! ### Helper lemmas: record parser -/

theorem Res.bind_ok {α β : Type} {x : Res α} {f : α → Res β} {b : β}
    (h : Res.bind x f = Res.ok b) : ∃ a, x = Res.ok a ∧ f a = Res.ok b := by
  cases x with
  | ok a => exact ⟨a, rfl, h⟩
  | fail => simp [Res.bind] at h
  | panic => simp [Res.bind] at h
  | diverge => simp [Res.bind] at h

theorem getElem?_some_lt {l : List Nat} {n x : Nat} (h : l[n]? = some x) :
    n < l.length := by
  by_contra hx
  rw [List.getElem?_eq_none (by omega)] at h
  exact Option.noConfusion h

theorem getElem?_some_val {l : List Nat} {n x : Nat} (h : l[n]? = some x) :
    ∀ hlt : n < l.length, l[n] = x := by
  intro hlt
  rw [List.getElem?_eq_getElem hlt] at h
  exact (Option.some.injEq _ _).mp h

theorem getElem?_at_len {α : Type} (p : List α) (c : α) (r : List α) (pos : Nat)
    (hpos : pos = p.length) : (p ++ c :: r)[pos]? = some c := by
  subst hpos
  rw [List.getElem?_append_right (Nat.le_refl _)]
  simp

theorem skip_white_oob (buf : List Nat) (pos : Nat) (h : buf.length ≤ pos) :
    skip_white buf pos = pos := by
  rw [skip_white, dif_neg (by omega)]

theorem skip_white_stop (buf : List Nat) (pos : Nat) (c : Nat)
    (hc : buf[pos]? = some c) (hw : is_white c = false) : skip_white buf pos = pos := by
  have hlt : pos < buf.length := getElem?_some_lt hc
  have hg : buf[pos] = c := getElem?_some_val hc hlt
  rw [skip_white, dif_pos hlt, hg]
  rw [if_neg (by rw [hw]; exact Bool.false_ne_true)]

theorem expect_oob (buf : List Nat) (pos c : Nat) (h : buf.length ≤ pos) :
    expect buf pos c = Res.panic := by
  simp only [expect]
  rw [skip_white_oob buf pos h]
  rw [dif_neg (by omega)]

theorem expect_hit (buf : List Nat) (pos c : Nat)
    (hc : buf[pos]? = some c) (hw : is_white c = false) :
    expect buf pos c = Res.ok (pos + 1) := by
  have hlt : pos < buf.length := getElem?_some_lt hc
  have hg : buf[pos] = c := getElem?_some_val hc hlt
  simp only [expect]
  rw [skip_white_stop buf pos c hc hw]
  rw [dif_pos hlt, hg]
  rw [if_pos (by simp)]

theorem expect_miss (buf : List Nat) (pos c b : Nat)
    (hb : buf[pos]? = some b) (hw : is_white b = false) (hbc : (b == c) = false) :
    expect buf pos c = Res.fail := by
  have hlt : pos < buf.length := getElem?_some_lt hb
  have hg : buf[pos] = b := getElem?_some_val hb hlt
  simp only [expect]
  rw [skip_white_stop buf pos b hb hw]
  rw [dif_pos hlt, hg]
  rw [if_neg (by rw [hbc]; exact Bool.false_ne_true)]

theorem scanQuote_oob (buf : List Nat) (pos : Nat) (h : buf.length ≤ pos) :
    scanQuote buf pos = none := by
  rw [scanQuote, dif_neg (by omega)]

theorem scanQuote_run (s : List Nat) :
    ∀ (p r : List Nat) (pos : Nat), pos = p.length → 34 ∉ s →
      scanQuote (p ++ (s ++ 34 :: r)) pos = some (pos + s.length) := by
  induction s with
  | nil =>
    intro p r pos hpos _
    subst hpos
    rw [show p ++ ([] ++ 34 :: r) = p ++ 34 :: r from by simp]
    rw [scanQuote]
    have hget : (p ++ 34 :: r)[p.length]? = some 34 := getElem?_at_len p 34 r _ rfl
    have hlt : p.length < (p ++ 34 :: r).length := getElem?_some_lt hget
    rw [dif_pos hlt]
    have hpeek : peek (p ++ 34 :: r) p.length = 34 := by rw [peek, hget]; rfl
    rw [hpeek, if_pos (by rfl)]
    simp
  | cons b s' ih =>
    intro p r pos hpos hs
    subst hpos
    have hb34 : (b == 34) = false := by
      simp only [beq_eq_false_iff_ne, ne_eq]
      intro hbe
      subst hbe
      exact hs (List.mem_cons_self _ _)
    rw [show p ++ ((b :: s') ++ 34 :: r) = p ++ b :: (s' ++ 34 :: r) from by simp]
    rw [scanQuote]
    have hget : (p ++ b :: (s' ++ 34 :: r))[p.length]? = some b :=
      getElem?_at_len p b _ _ rfl
    have hlt : p.length < (p ++ b :: (s' ++ 34 :: r)).length := getElem?_some_lt hget
    rw [dif_pos hlt]
    have hpeek : peek (p ++ b :: (s' ++ 34 :: r)) p.length = b := by rw [peek, hget]; rfl
    rw [hpeek]
    rw [if_neg (by rw [hb34]; exact Bool.false_ne_true)]
    have hrec := ih (p ++ [b]) r (p.length + 1) (by simp) (fun hm => hs (List.mem_cons_of_mem _ hm))
    rw [show (p ++ [b]) ++ (s' ++ 34 :: r) = p ++ b :: (s' ++ 34 :: r) from by simp] at hrec
    rw [hrec]
    refine congrArg some ?_
    simp only [List.length_cons]
    omega

theorem string_run (p s r : List Nat) (pos : Nat) (hpos : pos = p.length) (hs : 34 ∉ s) :
    string (p ++ (34 :: (s ++ 34 :: r))) pos =
      Res.ok ((pos + 1, pos + 1 + s.length), pos + 1 + s.length + 1) := by
  subst hpos
  have hexp1 : expect (p ++ (34 :: (s ++ 34 :: r))) p.length 34 = Res.ok (p.length + 1) :=
    expect_hit _ _ _ (getElem?_at_len p 34 _ _ rfl) (by decide)
  have hscan : scanQuote (p ++ (34 :: (s ++ 34 :: r))) (p.length + 1) =
      some (p.length + 1 + s.length) := by
    rw [show p ++ (34 :: (s ++ 34 :: r)) = (p ++ [34]) ++ (s ++ 34 :: r) from by simp]
    exact scanQuote_run s (p ++ [34]) r _ (by simp) hs
  have hexp2 : expect (p ++ (34 :: (s ++ 34 :: r))) (p.length + 1 + s.length) 34 =
      Res.ok (p.length + 1 + s.length + 1) := by
    apply expect_hit
    · rw [show p ++ (34 :: (s ++ 34 :: r)) = (p ++ 34 :: s) ++ 34 :: r from by simp]
      exact getElem?_at_len _ 34 _ _ (by simp; omega)
    · decide
  calc string (p ++ (34 :: (s ++ 34 :: r))) p.length
      = Res.bind (expect (p ++ (34 :: (s ++ 34 :: r))) p.length 34) (fun q =>
          match scanQuote (p ++ (34 :: (s ++ 34 :: r))) q with
          | some e =>
            Res.bind (expect (p ++ (34 :: (s ++ 34 :: r))) e 34) fun p2 =>
            Res.ok ((q, e), p2)
          | none => Res.diverge) := by rw [string]
    _ = (match scanQuote (p ++ (34 :: (s ++ 34 :: r))) (p.length + 1) with
          | some e =>
            Res.bind (expect (p ++ (34 :: (s ++ 34 :: r))) e 34) fun p2 =>
            Res.ok ((p.length + 1, e), p2)
          | none => Res.diverge) := by rw [hexp1]; exact rfl
    _ = Res.bind (expect (p ++ (34 :: (s ++ 34 :: r))) (p.length + 1 + s.length) 34)
          (fun p2 => Res.ok ((p.length + 1, p.length + 1 + s.length), p2)) := by
            rw [hscan]
    _ = Res.ok ((p.length + 1, p.length + 1 + s.length), p.length + 1 + s.length + 1) := by
          rw [hexp2]; exact rfl

theorem scanQuote_bounds_aux (buf : List Nat) :
    ∀ (n pos e : Nat), buf.length - pos ≤ n →
      scanQuote buf pos = some e → pos ≤ e ∧ e < buf.length := by
  intro n
  induction n with
  | zero =>
    intro pos e hn h
    rw [scanQuote_oob buf pos (by omega)] at h
    exact Option.noConfusion h
  | succ n ih =>
    intro pos e hn h
    rw [scanQuote] at h
    by_cases hlt : pos < buf.length
    · rw [dif_pos hlt] at h
      by_cases hq : (peek buf pos == 34) = true
      · rw [if_pos hq] at h
        have he := (Option.some.injEq _ _).mp h
        omega
      · rw [if_neg hq] at h
        have := ih (pos + 1) e (by omega) h
        exact ⟨by omega, this.2⟩
    · rw [dif_neg hlt] at h
      exact Option.noConfusion h

theorem string_ok_bounds {buf : List Nat} {pos : Nat} {se : (Nat × Nat) × Nat}
    (h : string buf pos = Res.ok se) : se.1.1 ≤ se.1.2 ∧ se.1.2 < buf.length := by
  rw [string] at h
  obtain ⟨p, hp, h⟩ := Res.bind_ok h
  cases hsq : scanQuote buf p with
  | some e =>
    rw [hsq] at h
    obtain ⟨p2, hx2, h⟩ := Res.bind_ok (show Res.bind (expect buf e 34)
      (fun p2 => Res.ok ((p, e), p2)) = Res.ok se from h)
    have hse : ((p, e), p2) = se := by
      injection h with h
    have hb := scanQuote_bounds_aux buf buf.length p e (by omega) hsq
    rw [← hse]
    exact hb
  | none =>
    rw [hsq] at h
    exact Res.noConfusion (show Res.diverge = Res.ok se from h)

theorem buf_to_str_run (p s r : List Nat) (a b : Nat) (ha : a = p.length)
    (hb : b = p.length + s.length) : buf_to_str (p ++ (s ++ r)) (a, b) = s := by
  subst ha
  subst hb
  simp only [buf_to_str]
  rw [List.take_append_eq_append_take]
  simp [List.drop_append]

/-- Full evaluation of `Parser::parse` on a canonical well-formed
4-pair buffer: the returned `name` range is the content range of the
2nd pair's value and the returned `value` range is the content range of
the 4th pair's value. -/
theorem parse_enc (k1 v1 k2 v2 k3 v3 k4 v4 : List Nat)
    (hk1 : 34 ∉ k1) (hv1 : 34 ∉ v1) (hk2 : 34 ∉ k2) (hv2 : 34 ∉ v2)
    (hk3 : 34 ∉ k3) (hv3 : 34 ∉ v3) (hk4 : 34 ∉ k4) (hv4 : 34 ∉ v4) :
    parse (enc k1 v1 k2 v2 k3 v3 k4 v4) 0 =
      Res.ok ⟨(k1.length + v1.length + k2.length + 11,
               k1.length + v1.length + k2.length + v2.length + 11),
              (k1.length + v1.length + k2.length + v2.length + k3.length + v3.length +
                 k4.length + 23,
               k1.length + v1.length + k2.length + v2.length + k3.length + v3.length +
                 k4.length + v4.length + 23)⟩ := by
  have h0 : expect (enc k1 v1 k2 v2 k3 v3 k4 v4) 0 123 = Res.ok 1 := by
    have hb : (enc k1 v1 k2 v2 k3 v3 k4 v4)[0]? = some 123 := by
      rw [show enc k1 v1 k2 v2 k3 v3 k4 v4 = [] ++ 123 :: (qt k1 ++ [58] ++ qt v1 ++ [44] ++
        qt k2 ++ [58] ++ qt v2 ++ [44] ++ qt k3 ++ [58] ++ qt v3 ++ [44] ++ qt k4 ++ [58] ++
        qt v4 ++ [125]) from by simp [enc, qt]]
      exact getElem?_at_len [] 123 _ 0 rfl
    rw [expect_hit _ _ _ hb (by decide)]
  have hsw : skip_white (enc k1 v1 k2 v2 k3 v3 k4 v4) 1 = 1 := by
    have hb : (enc k1 v1 k2 v2 k3 v3 k4 v4)[1]? = some 34 := by
      rw [show enc k1 v1 k2 v2 k3 v3 k4 v4 = [123] ++ 34 :: (k1 ++ [34] ++ [58] ++ qt v1 ++
        [44] ++ qt k2 ++ [58] ++ qt v2 ++ [44] ++ qt k3 ++ [58] ++ qt v3 ++ [44] ++ qt k4 ++
        [58] ++ qt v4 ++ [125]) from by simp [enc, qt]]
      exact getElem?_at_len [123] 34 _ 1 rfl
    exact skip_white_stop _ _ _ hb (by decide)
  have s1 : string (enc k1 v1 k2 v2 k3 v3 k4 v4) 1 =
      Res.ok ((2, k1.length + 2), k1.length + 3) := by
    have e := string_run [123] k1 ([58] ++ qt v1 ++ [44] ++ qt k2 ++ [58] ++ qt v2 ++ [44] ++
      qt k3 ++ [58] ++ qt v3 ++ [44] ++ qt k4 ++ [58] ++ qt v4 ++ [125]) 1 (by simp) hk1
    rw [show [123] ++ (34 :: (k1 ++ 34 :: ([58] ++ qt v1 ++ [44] ++ qt k2 ++ [58] ++ qt v2 ++
      [44] ++ qt k3 ++ [58] ++ qt v3 ++ [44] ++ qt k4 ++ [58] ++ qt v4 ++ [125]))) =
      enc k1 v1 k2 v2 k3 v3 k4 v4 from by simp [enc, qt]] at e
    rw [e]
    refine congrArg Res.ok ?_
    simp only [Prod.mk.injEq, true_and]
    omega
  have e1 : expect (enc k1 v1 k2 v2 k3 v3 k4 v4) (k1.length + 3) 58 =
      Res.ok (k1.length + 4) := by
    have hb : (enc k1 v1 k2 v2 k3 v3 k4 v4)[k1.length + 3]? = some 58 := by
      rw [show enc k1 v1 k2 v2 k3 v3 k4 v4 = ([123] ++ qt k1) ++ 58 :: (qt v1 ++ [44] ++
        qt k2 ++ [58] ++ qt v2 ++ [44] ++ qt k3 ++ [58] ++ qt v3 ++ [44] ++ qt k4 ++ [58] ++
        qt v4 ++ [125]) from by simp [enc, qt]]
      exact getElem?_at_len _ 58 _ _
        (by simp only [qt, List.length_append, List.length_cons, List.length_nil]; omega)
    rw [expect_hit _ _ _ hb (by decide)]
  have s2 : string (enc k1 v1 k2 v2 k3 v3 k4 v4) (k1.length + 4) =
      Res.ok ((k1.length + 5, k1.length + v1.length + 5), k1.length + v1.length + 6) := by
    have e := string_run ([123] ++ qt k1 ++ [58]) v1 ([44] ++ qt k2 ++ [58] ++ qt v2 ++ [44] ++
      qt k3 ++ [58] ++ qt v3 ++ [44] ++ qt k4 ++ [58] ++ qt v4 ++ [125]) (k1.length + 4)
      (by simp only [qt, List.length_append, List.length_cons, List.length_nil]; omega) hv1
    rw [show ([123] ++ qt k1 ++ [58]) ++ (34 :: (v1 ++ 34 :: ([44] ++ qt k2 ++ [58] ++ qt v2 ++
      [44] ++ qt k3 ++ [58] ++ qt v3 ++ [44] ++ qt k4 ++ [58] ++ qt v4 ++ [125]))) =
      enc k1 v1 k2 v2 k3 v3 k4 v4 from by simp [enc, qt]] at e
    rw [e]
    refine congrArg Res.ok ?_
    simp only [Prod.mk.injEq, true_and]
    omega
  have e2 : expect (enc k1 v1 k2 v2 k3 v3 k4 v4) (k1.length + v1.length + 6) 44 =
      Res.ok (k1.length + v1.length + 7) := by
    have hb : (enc k1 v1 k2 v2 k3 v3 k4 v4)[k1.length + v1.length + 6]? = some 44 := by
      rw [show enc k1 v1 k2 v2 k3 v3 k4 v4 = ([123] ++ qt k1 ++ [58] ++ qt v1) ++ 44 ::
        (qt k2 ++ [58] ++ qt v2 ++ [44] ++ qt k3 ++ [58] ++ qt v3 ++ [44] ++ qt k4 ++ [58] ++
        qt v4 ++ [125]) from by simp [enc, qt]]
      exact getElem?_at_len _ 44 _ _
        (by simp only [qt, List.length_append, List.length_cons, List.length_nil]; omega)
    rw [expect_hit _ _ _ hb (by decide)]
  have s3 : string (enc k1 v1 k2 v2 k3 v3 k4 v4) (k1.length + v1.length + 7) =
      Res.ok ((k1.length + v1.length + 8, k1.length + v1.length + k2.length + 8),
        k1.length + v1.length + k2.length + 9) := by
    have e := string_run ([123] ++ qt k1 ++ [58] ++ qt v1 ++ [44]) k2 ([58] ++ qt v2 ++ [44] ++
      qt k3 ++ [58] ++ qt v3 ++ [44] ++ qt k4 ++ [58] ++ qt v4 ++ [125])
      (k1.length + v1.length + 7)
      (by simp only [qt, List.length_append, List.length_cons, List.length_nil]; omega) hk2
    rw [show ([123] ++ qt k1 ++ [58] ++ qt v1 ++ [44]) ++ (34 :: (k2 ++ 34 :: ([58] ++ qt v2 ++
      [44] ++ qt k3 ++ [58] ++ qt v3 ++ [44] ++ qt k4 ++ [58] ++ qt v4 ++ [125]))) =
      enc k1 v1 k2 v2 k3 v3 k4 v4 from by simp [enc, qt]] at e
    rw [e]
    refine congrArg Res.ok ?_
    simp only [Prod.mk.injEq, true_and]
    omega
  have e3 : expect (enc k1 v1 k2 v2 k3 v3 k4 v4) (k1.length + v1.length + k2.length + 9) 58 =
      Res.ok (k1.length + v1.length + k2.length + 10) := by
    have hb : (enc k1 v1 k2 v2 k3 v3 k4 v4)[k1.length + v1.length + k2.length + 9]? =
        some 58 := by
      rw [show enc k1 v1 k2 v2 k3 v3 k4 v4 = ([123] ++ qt k1 ++ [58] ++ qt v1 ++ [44] ++
        qt k2) ++ 58 :: (qt v2 ++ [44] ++ qt k3 ++ [58] ++ qt v3 ++ [44] ++ qt k4 ++ [58] ++
        qt v4 ++ [125]) from by simp [enc, qt]]
      exact getElem?_at_len _ 58 _ _
        (by simp only [qt, List.length_append, List.length_cons, List.length_nil]; omega)
    rw [expect_hit _ _ _ hb (by decide)]
  have s4 : string (enc k1 v1 k2 v2 k3 v3 k4 v4) (k1.length + v1.length + k2.length + 10) =
      Res.ok ((k1.length + v1.length + k2.length + 11,
        k1.length + v1.length + k2.length + v2.length + 11),
        k1.length + v1.length + k2.length + v2.length + 12) := by
    have e := string_run ([123] ++ qt k1 ++ [58] ++ qt v1 ++ [44] ++ qt k2 ++ [58]) v2
      ([44] ++ qt k3 ++ [58] ++ qt v3 ++ [44] ++ qt k4 ++ [58] ++ qt v4 ++ [125])
      (k1.length + v1.length + k2.length + 10)
      (by simp only [qt, List.length_append, List.length_cons, List.length_nil]; omega) hv2
    rw [show ([123] ++ qt k1 ++ [58] ++ qt v1 ++ [44] ++ qt k2 ++ [58]) ++ (34 :: (v2 ++ 34 ::
      ([44] ++ qt k3 ++ [58] ++ qt v3 ++ [44] ++ qt k4 ++ [58] ++ qt v4 ++ [125]))) =
      enc k1 v1 k2 v2 k3 v3 k4 v4 from by simp [enc, qt]] at e
    rw [e]
    refine congrArg Res.ok ?_
    simp only [Prod.mk.injEq, true_and]
    omega
  have e4 : expect (enc k1 v1 k2 v2 k3 v3 k4 v4)
      (k1.length + v1.length + k2.length + v2.length + 12) 44 =
      Res.ok (k1.length + v1.length + k2.length + v2.length + 13) := by
    have hb : (enc k1 v1 k2 v2 k3 v3 k4 v4)[k1.length + v1.length + k2.length +
        v2.length + 12]? = some 44 := by
      rw [show enc k1 v1 k2 v2 k3 v3 k4 v4 = ([123] ++ qt k1 ++ [58] ++ qt v1 ++ [44] ++
        qt k2 ++ [58] ++ qt v2) ++ 44 :: (qt k3 ++ [58] ++ qt v3 ++ [44] ++ qt k4 ++ [58] ++
        qt v4 ++ [125]) from by simp [enc, qt]]
      exact getElem?_at_len _ 44 _ _
        (by simp only [qt, List.length_append, List.length_cons, List.length_nil]; omega)
    rw [expect_hit _ _ _ hb (by decide)]
  have s5 : string (enc k1 v1 k2 v2 k3 v3 k4 v4)
      (k1.length + v1.length + k2.length + v2.length + 13) =
      Res.ok ((k1.length + v1.length + k2.length + v2.length + 14,
        k1.length + v1.length + k2.length + v2.length + k3.length + 14),
        k1.length + v1.length + k2.length + v2.length + k3.length + 15) := by
    have e := string_run ([123] ++ qt k1 ++ [58] ++ qt v1 ++ [44] ++ qt k2 ++ [58] ++ qt v2 ++
      [44]) k3 ([58] ++ qt v3 ++ [44] ++ qt k4 ++ [58] ++ qt v4 ++ [125])
      (k1.length + v1.length + k2.length + v2.length + 13)
      (by simp only [qt, List.length_append, List.length_cons, List.length_nil]; omega) hk3
    rw [show ([123] ++ qt k1 ++ [58] ++ qt v1 ++ [44] ++ qt k2 ++ [58] ++ qt v2 ++ [44]) ++
      (34 :: (k3 ++ 34 :: ([58] ++ qt v3 ++ [44] ++ qt k4 ++ [58] ++ qt v4 ++ [125]))) =
      enc k1 v1 k2 v2 k3 v3 k4 v4 from by simp [enc, qt]] at e
    rw [e]
    refine congrArg Res.ok ?_
    simp only [Prod.mk.injEq, true_and]
    omega
  have e5 : expect (enc k1 v1 k2 v2 k3 v3 k4 v4)
      (k1.length + v1.length + k2.length + v2.length + k3.length + 15) 58 =
      Res.ok (k1.length + v1.length + k2.length + v2.length + k3.length + 16) := by
    have hb : (enc k1 v1 k2 v2 k3 v3 k4 v4)[k1.length + v1.length + k2.length + v2.length +
        k3.length + 15]? = some 58 := by
      rw [show enc k1 v1 k2 v2 k3 v3 k4 v4 = ([123] ++ qt k1 ++ [58] ++ qt v1 ++ [44] ++
        qt k2 ++ [58] ++ qt v2 ++ [44] ++ qt k3) ++ 58 :: (qt v3 ++ [44] ++ qt k4 ++ [58] ++
        qt v4 ++ [125]) from by simp [enc, qt]]
      exact getElem?_at_len _ 58 _ _
        (by simp only [qt, List.length_append, List.length_cons, List.length_nil]; omega)
    rw [expect_hit _ _ _ hb (by decide)]
  have s6 : string (enc k1 v1 k2 v2 k3 v3 k4 v4)
      (k1.length + v1.length + k2.length + v2.length + k3.length + 16) =
      Res.ok ((k1.length + v1.length + k2.length + v2.length + k3.length + 17,
        k1.length + v1.length + k2.length + v2.length + k3.length + v3.length + 17),
        k1.length + v1.length + k2.length + v2.length + k3.length + v3.length + 18) := by
    have e := string_run ([123] ++ qt k1 ++ [58] ++ qt v1 ++ [44] ++ qt k2 ++ [58] ++ qt v2 ++
      [44] ++ qt k3 ++ [58]) v3 ([44] ++ qt k4 ++ [58] ++ qt v4 ++ [125])
      (k1.length + v1.length + k2.length + v2.length + k3.length + 16)
      (by simp only [qt, List.length_append, List.length_cons, List.length_nil]; omega) hv3
    rw [show ([123] ++ qt k1 ++ [58] ++ qt v1 ++ [44] ++ qt k2 ++ [58] ++ qt v2 ++ [44] ++
      qt k3 ++ [58]) ++ (34 :: (v3 ++ 34 :: ([44] ++ qt k4 ++ [58] ++ qt v4 ++ [125]))) =
      enc k1 v1 k2 v2 k3 v3 k4 v4 from by simp [enc, qt]] at e
    rw [e]
    refine congrArg Res.ok ?_
    simp only [Prod.mk.injEq, true_and]
    omega
  have e6 : expect (enc k1 v1 k2 v2 k3 v3 k4 v4)
      (k1.length + v1.length + k2.length + v2.length + k3.length + v3.length + 18) 44 =
      Res.ok (k1.length + v1.length + k2.length + v2.length + k3.length + v3.length +
        19) := by
    have hb : (enc k1 v1 k2 v2 k3 v3 k4 v4)[k1.length + v1.length + k2.length + v2.length +
        k3.length + v3.length + 18]? = some 44 := by
      rw [show enc k1 v1 k2 v2 k3 v3 k4 v4 = ([123] ++ qt k1 ++ [58] ++ qt v1 ++ [44] ++
        qt k2 ++ [58] ++ qt v2 ++ [44] ++ qt k3 ++ [58] ++ qt v3) ++ 44 :: (qt k4 ++ [58] ++
        qt v4 ++ [125]) from by simp [enc, qt]]
      exact getElem?_at_len _ 44 _ _
        (by simp only [qt, List.length_append, List.length_cons, List.length_nil]; omega)
    rw [expect_hit _ _ _ hb (by decide)]
  have s7 : string (enc k1 v1 k2 v2 k3 v3 k4 v4)
      (k1.length + v1.length + k2.length + v2.length + k3.length + v3.length + 19) =
      Res.ok ((k1.length + v1.length + k2.length + v2.length + k3.length + v3.length + 20,
        k1.length + v1.length + k2.length + v2.length + k3.length + v3.length +
          k4.length + 20),
        k1.length + v1.length + k2.length + v2.length + k3.length + v3.length +
          k4.length + 21) := by
    have e := string_run ([123] ++ qt k1 ++ [58] ++ qt v1 ++ [44] ++ qt k2 ++ [58] ++ qt v2 ++
      [44] ++ qt k3 ++ [58] ++ qt v3 ++ [44]) k4 ([58] ++ qt v4 ++ [125])
      (k1.length + v1.length + k2.length + v2.length + k3.length + v3.length + 19)
      (by simp only [qt, List.length_append, List.length_cons, List.length_nil]; omega) hk4
    rw [show ([123] ++ qt k1 ++ [58] ++ qt v1 ++ [44] ++ qt k2 ++ [58] ++ qt v2 ++ [44] ++
      qt k3 ++ [58] ++ qt v3 ++ [44]) ++ (34 :: (k4 ++ 34 :: ([58] ++ qt v4 ++ [125]))) =
      enc k1 v1 k2 v2 k3 v3 k4 v4 from by simp [enc, qt]] at e
    rw [e]
    refine congrArg Res.ok ?_
    simp only [Prod.mk.injEq, true_and]
    omega
  have e7 : expect (enc k1 v1 k2 v2 k3 v3 k4 v4)
      (k1.length + v1.length + k2.length + v2.length + k3.length + v3.length +
        k4.length + 21) 58 =
      Res.ok (k1.length + v1.length + k2.length + v2.length + k3.length + v3.length +
        k4.length + 22) := by
    have hb : (enc k1 v1 k2 v2 k3 v3 k4 v4)[k1.length + v1.length + k2.length + v2.length +
        k3.length + v3.length + k4.length + 21]? = some 58 := by
      rw [show enc k1 v1 k2 v2 k3 v3 k4 v4 = ([123] ++ qt k1 ++ [58] ++ qt v1 ++ [44] ++
        qt k2 ++ [58] ++ qt v2 ++ [44] ++ qt k3 ++ [58] ++ qt v3 ++ [44] ++ qt k4) ++ 58 ::
        (qt v4 ++ [125]) from by simp [enc, qt]]
      exact getElem?_at_len _ 58 _ _
        (by simp only [qt, List.length_append, List.length_cons, List.length_nil]; omega)
    rw [expect_hit _ _ _ hb (by decide)]
  have s8 : string (enc k1 v1 k2 v2 k3 v3 k4 v4)
      (k1.length + v1.length + k2.length + v2.length + k3.length + v3.length +
        k4.length + 22) =
      Res.ok ((k1.length + v1.length + k2.length + v2.length + k3.length + v3.length +
        k4.length + 23,
        k1.length + v1.length + k2.length + v2.length + k3.length + v3.length +
          k4.length + v4.length + 23),
        k1.length + v1.length + k2.length + v2.length + k3.length + v3.length +
          k4.length + v4.length + 24) := by
    have e := string_run ([123] ++ qt k1 ++ [58] ++ qt v1 ++ [44] ++ qt k2 ++ [58] ++ qt v2 ++
      [44] ++ qt k3 ++ [58] ++ qt v3 ++ [44] ++ qt k4 ++ [58]) v4 [125]
      (k1.length + v1.length + k2.length + v2.length + k3.length + v3.length +
        k4.length + 22)
      (by simp only [qt, List.length_append, List.length_cons, List.length_nil]; omega) hv4
    rw [show ([123] ++ qt k1 ++ [58] ++ qt v1 ++ [44] ++ qt k2 ++ [58] ++ qt v2 ++ [44] ++
      qt k3 ++ [58] ++ qt v3 ++ [44] ++ qt k4 ++ [58]) ++ (34 :: (v4 ++ 34 :: [125])) =
      enc k1 v1 k2 v2 k3 v3 k4 v4 from by simp [enc, qt]] at e
    rw [e]
    refine congrArg Res.ok ?_
    simp only [Prod.mk.injEq, true_and]
    omega
  have e8 : expect (enc k1 v1 k2 v2 k3 v3 k4 v4)
      (k1.length + v1.length + k2.length + v2.length + k3.length + v3.length +
        k4.length + v4.length + 24) 125 =
      Res.ok (k1.length + v1.length + k2.length + v2.length + k3.length + v3.length +
        k4.length + v4.length + 25) := by
    have hb : (enc k1 v1 k2 v2 k3 v3 k4 v4)[k1.length + v1.length + k2.length + v2.length +
        k3.length + v3.length + k4.length + v4.length + 24]? = some 125 := by
      rw [show enc k1 v1 k2 v2 k3 v3 k4 v4 = ([123] ++ qt k1 ++ [58] ++ qt v1 ++ [44] ++
        qt k2 ++ [58] ++ qt v2 ++ [44] ++ qt k3 ++ [58] ++ qt v3 ++ [44] ++ qt k4 ++ [58] ++
        qt v4) ++ 125 :: [] from by simp [enc, qt]]
      exact getElem?_at_len _ 125 _ _
        (by simp only [qt, List.length_append, List.length_cons, List.length_nil]; omega)
    rw [expect_hit _ _ _ hb (by decide)]
  simp only [parse, h0, Res.bind, hsw, s1, e1, s2, e2, s3, e3, s4, e4, s5, e5, s6, e6,
    s7, e7, s8, e8]

/-! ### Claim C4 -/

/-- C4 round-trip: for every well-formed 4-pair buffer in the expected
token shape (arbitrary quote-free key and value strings; key names are
never checked, only field order), `parse` succeeds and the returned
`name` and `value` byte ranges slice out of the buffer exactly the
literal content of the 2nd pair's value and of the 4th pair's value. -/
theorem c4_round_trip (k1 v1 k2 v2 k3 v3 k4 v4 : List Nat)
    (hk1 : 34 ∉ k1) (hv1 : 34 ∉ v1) (hk2 : 34 ∉ k2) (hv2 : 34 ∉ v2)
    (hk3 : 34 ∉ k3) (hv3 : 34 ∉ v3) (hk4 : 34 ∉ k4) (hv4 : 34 ∉ v4) :
    ∃ r, parse (enc k1 v1 k2 v2 k3 v3 k4 v4) 0 = Res.ok r ∧
      buf_to_str (enc k1 v1 k2 v2 k3 v3 k4 v4) r.name = v2 ∧
      buf_to_str (enc k1 v1 k2 v2 k3 v3 k4 v4) r.value = v4 := by
  refine ⟨_, parse_enc k1 v1 k2 v2 k3 v3 k4 v4 hk1 hv1 hk2 hv2 hk3 hv3 hk4 hv4, ?_, ?_⟩
  · show buf_to_str (enc k1 v1 k2 v2 k3 v3 k4 v4)
      (k1.length + v1.length + k2.length + 11,
       k1.length + v1.length + k2.length + v2.length + 11) = v2
    rw [show enc k1 v1 k2 v2 k3 v3 k4 v4 = ([123] ++ qt k1 ++ [58] ++ qt v1 ++ [44] ++
      qt k2 ++ [58] ++ [34]) ++ (v2 ++ ([34] ++ [44] ++ qt k3 ++ [58] ++ qt v3 ++ [44] ++
      qt k4 ++ [58] ++ qt v4 ++ [125])) from by simp [enc, qt]]
    exact buf_to_str_run _ v2 _ _ _
      (by simp only [qt, List.length_append, List.length_cons, List.length_nil]; omega)
      (by simp only [qt, List.length_append, List.length_cons, List.length_nil]; omega)
  · show buf_to_str (enc k1 v1 k2 v2 k3 v3 k4 v4)
      (k1.length + v1.length + k2.length + v2.length + k3.length + v3.length +
         k4.length + 23,
       k1.length + v1.length + k2.length + v2.length + k3.length + v3.length +
         k4.length + v4.length + 23) = v4
    rw [show enc k1 v1 k2 v2 k3 v3 k4 v4 = ([123] ++ qt k1 ++ [58] ++ qt v1 ++ [44] ++
      qt k2 ++ [58] ++ qt v2 ++ [44] ++ qt k3 ++ [58] ++ qt v3 ++ [44] ++ qt k4 ++ [58] ++
      [34]) ++ (v4 ++ ([34] ++ [125])) from by simp [enc, qt]]
    exact buf_to_str_run _ v4 _ _ _
      (by simp only [qt, List.length_append, List.length_cons, List.length_nil]; omega)
      (by simp only [qt, List.length_append, List.length_cons, List.length_nil]; omega)

/-- C4 witness: the round-trip at the concrete buffer
`{"a":"b","c":"d","e":"f","g":"h"}`. -/
theorem c4_witness :
    ∃ r, parse (enc [97] [98] [99] [100] [101] [102] [103] [104]) 0 = Res.ok r ∧
      buf_to_str (enc [97] [98] [99] [100] [101] [102] [103] [104]) r.name = [100] ∧
      buf_to_str (enc [97] [98] [99] [100] [101] [102] [103] [104]) r.value = [104] :=
  c4_round_trip [97] [98] [99] [100] [101] [102] [103] [104]
    (by decide) (by decide) (by decide) (by decide)
    (by decide) (by decide) (by decide) (by decide)

/-! ### Claim C2 -/

/-- C2 counterexample: on the truncated buffer `b"{"` the record parser
does not return absent: `expect` reaches the unchecked index
`self.buf[self.pos]` with the buffer exhausted and panics (out-of-bounds
access, modelled `Res.panic`). This refutes the claim as stated. -/
theorem c2_counterexample : parse [123] 0 = Res.panic := by
  have h0 : expect [123] 0 123 = Res.ok 1 := by
    rw [expect_hit [123] 0 123 (by decide) (by decide)]
  have hsw : skip_white [123] 1 = 1 := skip_white_oob [123] 1 (by decide)
  have hstr : string [123] 1 = Res.panic := by
    rw [string, expect_oob [123] 1 34 (by decide)]
    exact rfl
  simp only [parse, h0, Res.bind, hsw, hstr]

/-- C2 amended: when the deviation from the expected token shape is a
wrong but in-bounds byte at a delimiter position, `parse` returns
absent with no partial output — e.g. every complete flat object with
only one key/value pair fails at the missing comma (first conjunct).
But on truncated input the unchecked `self.buf[self.pos]` in `expect`
panics (second conjunct, `b"{"`), and on a buffer whose quoted string
is unterminated the `while peek() != b'"'` loop never exits (third
conjunct, `b"{\x22"`). -/
theorem c2_amended :
    (∀ k v : List Nat, 34 ∉ k → 34 ∉ v → parse (enc1 k v) 0 = Res.fail) ∧
    parse [123] 0 = Res.panic ∧
    parse [123, 34] 0 = Res.diverge := by
  refine ⟨?_, ?_, ?_⟩
  · intro k v hk hv
    have h0 : expect (enc1 k v) 0 123 = Res.ok 1 := by
      have hb : (enc1 k v)[0]? = some 123 := by
        rw [show enc1 k v = [] ++ 123 :: (qt k ++ [58] ++ qt v ++ [125]) from by
          simp [enc1, qt]]
        exact getElem?_at_len [] 123 _ 0 rfl
      rw [expect_hit _ _ _ hb (by decide)]
    have hsw : skip_white (enc1 k v) 1 = 1 := by
      have hb : (enc1 k v)[1]? = some 34 := by
        rw [show enc1 k v = [123] ++ 34 :: (k ++ [34] ++ [58] ++ qt v ++ [125]) from by
          simp [enc1, qt]]
        exact getElem?_at_len [123] 34 _ 1 rfl
      exact skip_white_stop _ _ _ hb (by decide)
    have s1 : string (enc1 k v) 1 = Res.ok ((2, k.length + 2), k.length + 3) := by
      have e := string_run [123] k ([58] ++ qt v ++ [125]) 1 (by simp) hk
      rw [show [123] ++ (34 :: (k ++ 34 :: ([58] ++ qt v ++ [125]))) = enc1 k v from by
        simp [enc1, qt]] at e
      rw [e]
      refine congrArg Res.ok ?_
      simp only [Prod.mk.injEq, true_and]
      omega
    have e1 : expect (enc1 k v) (k.length + 3) 58 = Res.ok (k.length + 4) := by
      have hb : (enc1 k v)[k.length + 3]? = some 58 := by
        rw [show enc1 k v = ([123] ++ qt k) ++ 58 :: (qt v ++ [125]) from by simp [enc1, qt]]
        exact getElem?_at_len _ 58 _ _
          (by simp only [qt, List.length_append, List.length_cons, List.length_nil]; omega)
      rw [expect_hit _ _ _ hb (by decide)]
    have s2 : string (enc1 k v) (k.length + 4) =
        Res.ok ((k.length + 5, k.length + v.length + 5), k.length + v.length + 6) := by
      have e := string_run ([123] ++ qt k ++ [58]) v [125] (k.length + 4)
        (by simp only [qt, List.length_append, List.length_cons, List.length_nil]; omega) hv
      rw [show ([123] ++ qt k ++ [58]) ++ (34 :: (v ++ 34 :: [125])) = enc1 k v from by
        simp [enc1, qt]] at e
      rw [e]
      refine congrArg Res.ok ?_
      simp only [Prod.mk.injEq, true_and]
      omega
    have e2 : expect (enc1 k v) (k.length + v.length + 6) 44 = Res.fail := by
      have hb : (enc1 k v)[k.length + v.length + 6]? = some 125 := by
        rw [show enc1 k v = ([123] ++ qt k ++ [58] ++ qt v) ++ 125 :: [] from by
          simp [enc1, qt]]
        exact getElem?_at_len _ 125 _ _
          (by simp only [qt, List.length_append, List.length_cons, List.length_nil]; omega)
      exact expect_miss _ _ _ _ hb (by decide) (by decide)
    simp only [parse, h0, Res.bind, hsw, s1, e1, s2, e2]
  · have h0 : expect [123] 0 123 = Res.ok 1 := by
      rw [expect_hit [123] 0 123 (by decide) (by decide)]
    have hsw : skip_white [123] 1 = 1 := skip_white_oob [123] 1 (by decide)
    have hstr : string [123] 1 = Res.panic := by
      rw [string, expect_oob [123] 1 34 (by decide)]
      exact rfl
    simp only [parse, h0, Res.bind, hsw, hstr]
  · have h0 : expect [123, 34] 0 123 = Res.ok 1 := by
      rw [expect_hit [123, 34] 0 123 (by decide) (by decide)]
    have hsw : skip_white [123, 34] 1 = 1 :=
      skip_white_stop [123, 34] 1 34 (by decide) (by decide)
    have hstr : string [123, 34] 1 = Res.diverge := by
      have he : expect [123, 34] 1 34 = Res.ok 2 := by
        rw [expect_hit [123, 34] 1 34 (by decide) (by decide)]
      calc string [123, 34] 1
          = Res.bind (expect [123, 34] 1 34) (fun q =>
              match scanQuote [123, 34] q with
              | some e => Res.bind (expect [123, 34] e 34) fun p2 => Res.ok ((q, e), p2)
              | none => Res.diverge) := by rw [string]
        _ = (match scanQuote [123, 34] 2 with
              | some e => Res.bind (expect [123, 34] e 34) fun p2 => Res.ok ((2, e), p2)
              | none => Res.diverge) := by rw [he]; exact rfl
        _ = Res.diverge := by rw [scanQuote_oob [123, 34] 2 (by decide)]
    simp only [parse, h0, Res.bind, hsw, hstr]

/-- C2 witness: the amended claim's graceful-failure conjunct at the
concrete one-pair buffer. -/
theorem c2_witness : parse (enc1 [97] [98]) 0 = Res.fail :=
  c2_amended.1 [97] [98] (by decide) (by decide)

/-! ### Claim C9 -/

/-- C9: whenever `parse` returns `Some` positions, both returned byte
ranges satisfy `start ≤ end` and `end < len(buffer)` (each range end is
the in-bounds position of a closing quote), so slicing the buffer with
them cannot fail. -/
theorem c9_ranges_in_bounds (buf : List Nat) (pos : Nat) (r : RdnsInfoPositions)
    (h : parse buf pos = Res.ok r) :
    r.name.1 ≤ r.name.2 ∧ r.name.2 < buf.length ∧
      r.value.1 ≤ r.value.2 ∧ r.value.2 < buf.length := by
  rw [parse] at h
  obtain ⟨p0, h0, h⟩ := Res.bind_ok h
  obtain ⟨tsk, h1, h⟩ := Res.bind_ok h
  obtain ⟨q1, h2, h⟩ := Res.bind_ok h
  obtain ⟨tsv, h3, h⟩ := Res.bind_ok h
  obtain ⟨q2, h4, h⟩ := Res.bind_ok h
  obtain ⟨nk, h5, h⟩ := Res.bind_ok h
  obtain ⟨q3, h6, h⟩ := Res.bind_ok h
  obtain ⟨nv, h7, h⟩ := Res.bind_ok h
  obtain ⟨q4, h8, h⟩ := Res.bind_ok h
  obtain ⟨pk, h9, h⟩ := Res.bind_ok h
  obtain ⟨q5, h10, h⟩ := Res.bind_ok h
  obtain ⟨pv, h11, h⟩ := Res.bind_ok h
  obtain ⟨q6, h12, h⟩ := Res.bind_ok h
  obtain ⟨vk, h13, h⟩ := Res.bind_ok h
  obtain ⟨q7, h14, h⟩ := Res.bind_ok h
  obtain ⟨vv, h15, h⟩ := Res.bind_ok h
  obtain ⟨q8, h16, h⟩ := Res.bind_ok h
  have hr : (⟨nv.1, vv.1⟩ : RdnsInfoPositions) = r := by
    injection h with h
  have hbn := string_ok_bounds h7
  have hbv := string_ok_bounds h15
  rw [← hr]
  exact ⟨hbn.1, hbn.2, hbv.1, hbv.2⟩

/-- C9 witness: the bounds at a concrete parsed buffer. -/
theorem c9_witness :
    (14 : Nat) ≤ 15 ∧ 15 < (enc [97] [98] [99] [100] [101] [102] [103] [104]).length ∧
      (30 : Nat) ≤ 31 ∧ 31 < (enc [97] [98] [99] [100] [101] [102] [103] [104]).length :=
  c9_ranges_in_bounds (enc [97] [98] [99] [100] [101] [102] [103] [104]) 0
    ⟨(14, 15), (30, 31)⟩
    (parse_enc [97] [98] [99] [100] [101] [102] [103] [104]
      (by decide) (by decide) (by decide) (by decide)
      (by decide) (by decide) (by decide) (by decide))

/-- C5 witness: the general conjunct at `"10.0.0.255"`. -/
theorem c5_witness :
    ipv4_to_u32 ([49, 48] ++ 46 :: ([48] ++ 46 :: ([48] ++ 46 :: [50, 53, 53]))) =
      some (digitsVal [49, 48] <<< 24 ||| digitsVal [48] <<< 16 |||
        digitsVal [48] <<< 8 ||| digitsVal [50, 53, 53]) :=
  c5_big_endian.1 [49, 48] [48] [48] [50, 53, 53]
    (by decide) (by decide) (by decide) (by decide)
    (by decide) (by decide) (by decide) (by decide)

end TldX
